import Mathlib

/-!
# Verification of the Dateformatter response-extraction layer

Shallow embedding of the two response parsers of the repository:

* `DateAwareLLM._parse_date_response` (src/dateformatter_llm.py, lines 99-116),
  plus the secondary date-enrichment pass of `process_text_with_dates`
  (lines 125-151) and `_get_relative_date_description` (lines 153-168);
* `TimezoneAwareDateLLM._parse_response` (src/timezone.py).  The file
  defines the class twice; the second, hardened definition (lines 223-264,
  with the try/except wrapper) shadows the first, so it is the effective
  parser and is the one embedded here.

Python strings are modelled as `List Char`; the Python primitives used by
the source (`str.split(sep)`, `str.split(sep, 1)`, `str.strip()`,
`str.startswith`, substring containment `in`, tuple unpacking that may
raise `ValueError`, list indexing that may raise `IndexError`) are each
given a faithful executable model below.  Fallible operations return
`Except`, so that a Python exception is visible as an `Except.error`.
-/


/-- The characters removed by Python's `str.strip()` (ASCII whitespace set). -/
def isPySpace (c : Char) : Bool :=
  c = ' ' || c = '\t' || c = '\n' || c = '\r' || c = '\x0b' || c = '\x0c'

/-- Model of Python `str.strip()`: drop leading and trailing whitespace. -/
def stripCh (xs : List Char) : List Char :=
  ((xs.dropWhile isPySpace).reverse.dropWhile isPySpace).reverse

/-- Model of Python `str.strip()` at the `String` level. -/
def pyStrip (s : String) : String :=
  String.mk (stripCh s.data)

/-- Fuel-driven worker for `pySplitCh`.  With `xs.length ≤ fuel` it computes
Python's `xs.split(sep)`: scan left to right, cut at each (non-overlapping)
occurrence of the non-empty separator `sep`. -/
def pySplitAux (sep : List Char) : Nat → List Char → List (List Char)
  | _, [] => [[]]
  | 0, xs => [xs]
  | Nat.succ fuel, x :: xs =>
    if sep.isPrefixOf (x :: xs) && !sep.isEmpty then
      [] :: pySplitAux sep fuel ((x :: xs).drop sep.length)
    else
      match pySplitAux sep fuel xs with
      | [] => [x :: xs]
      | h :: t => (x :: h) :: t

/-- Model of Python `s.split(sep)` for a non-empty separator `sep`
(every separator in the source is a non-empty literal; Python raises on
an empty separator, which therefore never happens here). -/
def pySplitCh (sep xs : List Char) : List (List Char) :=
  pySplitAux sep xs.length xs

/-- Locate the first occurrence of the non-empty separator `sep` in `xs`,
returning the text before it and the text after it. -/
def breakOnSep (sep : List Char) : List Char → Option (List Char × List Char)
  | [] => none
  | x :: xs =>
    if sep.isPrefixOf (x :: xs) && !sep.isEmpty then
      some ([], (x :: xs).drop sep.length)
    else
      match breakOnSep sep xs with
      | none => none
      | some (p, q) => some (x :: p, q)

/-- Model of Python `s.split(sep, 1)`: split at the first occurrence only. -/
def splitOnce (sep xs : List Char) : List (List Char) :=
  match breakOnSep sep xs with
  | none => [xs]
  | some (p, q) => [p, q]

/-- Model of Python tuple unpacking `a, b = xs` for a list of parts:
raises `ValueError` (here: `Except.error`) unless there are exactly two. -/
def unpack2 (xs : List (List Char)) : Except String (List Char × List Char) :=
  match xs with
  | [a, b] => Except.ok (a, b)
  | _ => Except.error "ValueError"

/-- Model of Python list indexing `xs[1]`: `IndexError` when out of range. -/
def pyIdx1E (xs : List (List Char)) : Except String (List Char) :=
  match xs with
  | _ :: b :: _ => Except.ok b
  | _ => Except.error "IndexError"

/-- Rejoining the pieces of a Python split with the separator. -/
def joinSep (sep : List Char) : List (List Char) → List Char
  | [] => []
  | [p] => p
  | p :: q :: rest => p ++ sep ++ joinSep sep (q :: rest)

/-! ## `DateAwareLLM` (src/dateformatter_llm.py)

`_parse_date_response` (lines 99-116) slices the completion between the
three marker literals.  It contains no try/except, so a Python exception
raised inside it would propagate: the embedding therefore returns
`Except`, with `Except.error` standing for a raised exception. -/


/-- Marker literal `"Original text:"` of the date-only template. -/
def ORIGTXT : List Char := ("Original text:").data

/-- Marker literal `"Standardized text:"` of the date-only template. -/
def STDTXT : List Char := ("Standardized text:").data

/-- Marker literal `"Extracted dates:"` of the date-only template. -/
def EXTRD : List Char := ("Extracted dates:").data

/-- Result record of `_parse_date_response` (lines 101-105). -/
structure DateResult where
  original_text : String
  standardized_text : String
  extracted_dates : List String
deriving DecidableEq

/-- Line 114: `[d.strip() for d in dates_str.split(",")] if dates_str else []`,
applied to the raw text `tail` after the `"Extracted dates:"` marker
(line 113 strips it first into `dates_str`). -/
def extractDatesField (tail : List Char) : List String :=
  let dates_str := stripCh tail
  if dates_str.isEmpty then []
  else (pySplitCh (",".data) dates_str).map (fun d => String.mk (stripCh d))

/-- The slice `response.split(marker)[1].split(next)[0].strip()` used by
lines 109 and 111.  `.headD []` models `[0]`: a Python `[0]` could only
raise on an empty list, and `pySplitAux_ne_nil` shows a split is never
empty, so the default is unreachable. -/
def sliceBetween (marker next resp : List Char) : List Char :=
  stripCh ((pySplitCh next ((pySplitCh marker resp).getD 1 [])).headD [])

/-- The `original_text` field as line 108-109 computes it. -/
def origField (resp : List Char) : String :=
  if ORIGTXT <:+: resp then String.mk (sliceBetween ORIGTXT STDTXT resp) else ""

/-- The `standardized_text` field as lines 110-111 compute it. -/
def stdField (resp : List Char) : String :=
  if STDTXT <:+: resp then String.mk (sliceBetween STDTXT EXTRD resp) else ""

/-- The `extracted_dates` field as lines 112-114 compute it. -/
def datesField (resp : List Char) : List String :=
  if EXTRD <:+: resp then extractDatesField ((pySplitCh EXTRD resp).getD 1 [])
  else []

/-- `DateAwareLLM._parse_date_response` (lines 99-116).  Python's guarded
`response.split(m)[1]` indexing is modelled with `pyIdx1E`, so that a
(hypothetical) `IndexError` would surface as `Except.error`; the three
fields are assigned in sequence as in the source. -/
def _parse_date_response (response : String) : Except String DateResult := do
  let r := response.data
  let original_text ←
    if ORIGTXT <:+: r then do
      let t ← pyIdx1E (pySplitCh ORIGTXT r)
      pure (String.mk (stripCh ((pySplitCh STDTXT t).headD [])))
    else pure ""
  let standardized_text ←
    if STDTXT <:+: r then do
      let t ← pyIdx1E (pySplitCh STDTXT r)
      pure (String.mk (stripCh ((pySplitCh EXTRD t).headD [])))
    else pure ""
  let extracted_dates ←
    if EXTRD <:+: r then do
      let t ← pyIdx1E (pySplitCh EXTRD r)
      pure (extractDatesField t)
    else pure ([] : List String)
  pure ⟨original_text, standardized_text, extracted_dates⟩

/-! ## Enrichment pass of `process_text_with_dates` (lines 125-168)

`dateutil.parser.parse` is third-party code, so it is abstracted as a
parameter `parse : String → Option PyDatetime`: `none` models a raised
parse exception (caught by the bare `except: continue` of line 148-149).
Calendar dates are modelled by their ordinal day number (`Int`), which is
exact for the whole-day subtraction `date - today` of line 157. -/


/-- The three attributes of a parsed `datetime` that the code reads:
`isoformat()`, `strftime("%A")` and the calendar date `date()` as an
ordinal day number. -/
structure PyDatetime where
  isoformat : String
  weekdayName : String
  dateOrdinal : Int

/-- One entry of the `enhanced_info["dates"]` list (lines 143-147). -/
structure DateInfo where
  iso_format : String
  day_of_week : String
  relative : String
deriving DecidableEq

/-- `DateAwareLLM._get_relative_date_description` (lines 153-168), with the
parsed date and `datetime.now().date()` given as ordinal day numbers (the
local `delta = date - today` of line 157 is inlined as `targetDay - today`). -/
def _get_relative_date_description (targetDay today : Int) : String :=
  if targetDay - today = 0 then "today"
  else if targetDay - today = 1 then "tomorrow"
  else if targetDay - today = -1 then "yesterday"
  else if targetDay - today > 0 then
    "in " ++ toString (targetDay - today) ++ " days"
  else toString (targetDay - today).natAbs ++ " days ago"

/-- The `for date_str in date_info["extracted_dates"]` loop of lines
140-149: parse each date string, keep the enriched record on success,
`continue` silently on failure. -/
def enrich_dates (parse : String → Option PyDatetime) (today : Int) :
    List String → List DateInfo
  | [] => []
  | d :: rest =>
    match parse d with
    | some obj =>
      ⟨obj.isoformat, obj.weekdayName,
        _get_relative_date_description obj.dateOrdinal today⟩ ::
        enrich_dates parse today rest
    | none => enrich_dates parse today rest

/-- The record built by `process_text_with_dates` (lines 131-137). -/
structure EnhancedInfo where
  original : String
  standardized : String
  dates : List DateInfo
  relative_dates : List String
  date_relations : List String

/-- `DateAwareLLM.process_text_with_dates` (lines 125-151).  The awaited
model call of `extract_dates` is replaced by its completion text
`response`, which the pipeline then parses and enriches. -/
def process_text_with_dates (parse : String → Option PyDatetime)
    (today : Int) (text response : String) : Except String EnhancedInfo := do
  let date_info ← _parse_date_response response
  pure { original := text
         standardized := date_info.standardized_text
         dates := enrich_dates parse today date_info.extracted_dates
         relative_dates := []
         date_relations := [] }

/-! ## `TimezoneAwareDateLLM._parse_response` (src/timezone.py, lines 223-264)

The effective (second, hardened) definition of the class.  The whole body
is wrapped in `try/except Exception` (lines 232-262); the equivalents loop
additionally wraps its tuple unpacking in `try/except ValueError` with
`continue` (lines 251-259). -/


/-- Marker literal `"Original:"` of the timezone template. -/
def TZORIG : List Char := ("Original:").data

/-- Marker literal `"Detected Timezone:"` of the timezone template. -/
def TZDTZ : List Char := ("Detected Timezone:").data

/-- Marker literal `"Standardized (ISO 8601):"` of the timezone template. -/
def TZSTD : List Char := ("Standardized (ISO 8601):").data

/-- Marker literal `"Global Equivalents:"` of the timezone template. -/
def TZGEQ : List Char := ("Global Equivalents:").data

/-- Result record of `_parse_response` (lines 225-230).  Python dicts keep
insertion order, so `global_equivalents` is an ordered association list. -/
structure TZResult where
  original : String
  detected_timezone : String
  standardized : String
  global_equivalents : List (String × String)
deriving DecidableEq

/-- The zero-valued result of lines 225-230. -/
def emptyTZResult : TZResult := ⟨"", "", "", []⟩

/-- Python dict assignment `m[k] = v`: overwrite in place if the key is
present (keeping its original position), otherwise append at the end. -/
def dictInsert (m : List (String × String)) (k v : String) :
    List (String × String) :=
  match m with
  | [] => [(k, v)]
  | (k', v') :: rest =>
    if k' = k then (k, v) :: rest else (k', v') :: dictInsert rest k v

/-- The entry contributed by one line of the equivalents block (lines
249-257): strip the line, require a leading `-` and a `:`, split once on
the first `:` (the `ValueError` of a failed unpack is caught by the inner
`except` of lines 258-259 and yields no entry), strip both parts, and
record only if both are non-empty.  (The local bindings `line`, `tz`,
`dt` of the source are inlined.) -/
def lineEntry (rawLine : List Char) : Option (String × String) :=
  if ("-".data).isPrefixOf (stripCh rawLine) && (stripCh rawLine).contains ':' then
    match unpack2 (splitOnce (":".data) ((stripCh rawLine).drop 1)) with
    | Except.ok (tz_part, dt_part) =>
      if !(stripCh tz_part).isEmpty && !(stripCh dt_part).isEmpty then
        some (String.mk (stripCh tz_part), String.mk (stripCh dt_part))
      else none
    | Except.error _ => none
  else none

/-- One iteration of the `for line in parts["equivalents"].split("\n")`
loop (lines 248-259) acting on the mapping built so far. -/
def processEquivLine (m : List (String × String)) (rawLine : List Char) :
    List (String × String) :=
  match lineEntry rawLine with
  | some (tz, dt) => dictInsert m tz dt
  | none => m

/-- Lines 234-239: `response.split(marker)[1] if marker in response else ""`,
with the indexing kept fallible as in Python. -/
def getPart (marker resp : List Char) : Except String (List Char) :=
  if marker <:+: resp then pyIdx1E (pySplitCh marker resp) else Except.ok []

/-- The (always reached) value of `getPart`: under the guard the split has
at least two pieces, so `[1]` is total. -/
def partGet (marker resp : List Char) : List Char :=
  if marker <:+: resp then (pySplitCh marker resp).getD 1 [] else []

/-- Lines 242-244: `part.split(next)[0].strip() if part else ""`.
`.headD []` models `[0]`, unreachable default as a split is never empty. -/
def cleanPart (part next : List Char) : List Char :=
  if part.isEmpty then [] else stripCh ((pySplitCh next part).headD [])

/-- Lines 247-259: the equivalents block is processed only when non-empty
(Python truthiness), line by line. -/
def equivFold (equiv : List Char) : List (String × String) :=
  if equiv.isEmpty then []
  else (pySplitCh ("\n".data) equiv).foldl processEquivLine []

/-- The body of the `try:` block (lines 233-259): compute the four raw
parts (the only operations whose Python counterparts can raise an
uncaught exception, namely the `[1]` indexings), then fill the fields. -/
def parseTZBody (resp : List Char) : Except String TZResult := do
  let pOrig ← getPart TZORIG resp
  let pDtz ← getPart TZDTZ resp
  let pStd ← getPart TZSTD resp
  let pEq ← getPart TZGEQ resp
  pure { original := String.mk (cleanPart pOrig TZDTZ)
         detected_timezone := String.mk (cleanPart pDtz TZSTD)
         standardized := String.mk (cleanPart pStd TZGEQ)
         global_equivalents := equivFold pEq }

/-- `TimezoneAwareDateLLM._parse_response` (lines 223-264, the effective
definition).  The `except Exception` of lines 261-262 returns the
partially-filled result; every fallible step of the body precedes the
first field assignment (the loop's own fallible unpack is caught by the
inner `except ValueError`), so the partially-filled result at any
propagating failure point is still the initial empty record. -/
def _parse_response (response : String) : TZResult :=
  match parseTZBody response.data with
  | Except.ok r => r
  | Except.error _ => emptyTZResult

/-- The value `parseTZBody` always reaches. -/
def tzAssemble (resp : List Char) : TZResult :=
  { original := String.mk (cleanPart (partGet TZORIG resp) TZDTZ)
    detected_timezone := String.mk (cleanPart (partGet TZDTZ resp) TZSTD)
    standardized := String.mk (cleanPart (partGet TZSTD resp) TZGEQ)
    global_equivalents := equivFold (partGet TZGEQ resp) }

/-! ## Key order and normalization of the equivalents mapping -/


/-- First occurrence of each element, relative to a set of already-seen
keys: the insertion order of a Python dict built by repeated assignment. -/
def firstOccsAux (seen : List String) : List String → List String
  | [] => []
  | k :: rest =>
    if k ∈ seen then firstOccsAux seen rest
    else k :: firstOccsAux (k :: seen) rest

/-- The lines the equivalents loop iterates over (lines 247-248). -/
def equivLinesOf (resp : List Char) : List (List Char) :=
  let e := partGet TZGEQ resp
  if e.isEmpty then [] else pySplitCh ("\n".data) e

/-- The labels of the entries actually recorded by the loop, in the order
the loop encounters them. -/
def recordedLabels (resp : List Char) : List String :=
  (equivLinesOf resp).filterMap (fun l => (lineEntry l).map Prod.fst)

/-- The relative-day classification in the spec's words, as a function of
the whole-day difference `d = target_date - current_local_date`:
`0 → "today"`, `1 → "tomorrow"`, `-1 → "yesterday"`, `> 1 → "in N days"`,
`< -1 → "N days ago"` with `N = |d|` (these five cases are exhaustive, so
the last is written as the final `else`).  Stated from the spec for
comparison with `_get_relative_date_description`. -/
def relClassificationSpec (d : Int) : String :=
  if d = 0 then "today"
  else if d = 1 then "tomorrow"
  else if d = -1 then "yesterday"
  else if d > 1 then "in " ++ toString d ++ " days"
  else toString d.natAbs ++ " days ago"

/-! ## Support lemmas about the Python string primitives -/

theorem pySplitAux_nil (sep : List Char) (fuel : Nat) :
    pySplitAux sep fuel [] = [[]] := by
  cases fuel <;> rfl


theorem pySplitAux_ne_nil (sep : List Char) (fuel : Nat) (xs : List Char) :
    pySplitAux sep fuel xs ≠ [] := by
  induction fuel generalizing xs with
  | zero => cases xs <;> simp [pySplitAux]
  | succ fuel _ =>
    cases xs with
    | nil => simp [pySplitAux]
    | cons x l =>
      simp only [pySplitAux]
      split
      · simp
      · split <;> simp

theorem append_drop_of_isPrefixOf {sep xs : List Char}
    (h : sep.isPrefixOf xs = true) : sep ++ xs.drop sep.length = xs := by
  obtain ⟨t, rfl⟩ := List.isPrefixOf_iff_prefix.mp h
  rw [List.drop_left]

theorem sep_ne_nil_of_cond {sep xs : List Char}
    (hc : (sep.isPrefixOf xs && !sep.isEmpty) = true) : sep ≠ [] := by
  cases sep with
  | nil => simp at hc
  | cons a s => simp

theorem pySplitAux_fuel (sep : List Char) :
    ∀ fuel fuel' xs, xs.length ≤ fuel → xs.length ≤ fuel' →
      pySplitAux sep fuel xs = pySplitAux sep fuel' xs := by
  intro fuel
  induction fuel with
  | zero =>
    intro fuel' xs h _
    have hx : xs = [] := List.eq_nil_of_length_eq_zero (Nat.le_zero.mp h)
    subst hx
    rw [pySplitAux_nil, pySplitAux_nil]
  | succ f ih =>
    intro fuel' xs h h'
    cases xs with
    | nil => rw [pySplitAux_nil, pySplitAux_nil]
    | cons x l =>
      cases fuel' with
      | zero => simp at h'
      | succ f' =>
        simp only [pySplitAux]
        by_cases hc : (sep.isPrefixOf (x :: l) && !sep.isEmpty) = true
        · rw [if_pos hc, if_pos hc]
          have hsep : 1 ≤ sep.length :=
            List.length_pos.mpr (sep_ne_nil_of_cond hc)
          have hlen : ((x :: l).drop sep.length).length ≤ f := by
            rw [List.length_drop]
            simp only [List.length_cons] at h ⊢
            omega
          have hlen' : ((x :: l).drop sep.length).length ≤ f' := by
            rw [List.length_drop]
            simp only [List.length_cons] at h' ⊢
            omega
          rw [ih f' _ hlen hlen']
        · rw [if_neg hc, if_neg hc,
            ih f' l (by simp at h; omega) (by simp at h'; omega)]

theorem pySplitCh_cons_pos {sep : List Char} {x : Char} {l : List Char}
    (hc : (sep.isPrefixOf (x :: l) && !sep.isEmpty) = true) :
    pySplitCh sep (x :: l) = [] :: pySplitCh sep ((x :: l).drop sep.length) := by
  have hsep : 1 ≤ sep.length :=
    List.length_pos.mpr (sep_ne_nil_of_cond hc)
  show pySplitAux sep (l.length + 1) (x :: l) = _
  simp only [pySplitAux, if_pos hc]
  rw [pySplitAux_fuel sep l.length ((x :: l).drop sep.length).length]
  · rfl
  · rw [List.length_drop]; simp only [List.length_cons]; omega
  · exact le_refl _

theorem pySplitCh_cons_neg {sep : List Char} {x : Char} {l : List Char}
    (hc : ¬ (sep.isPrefixOf (x :: l) && !sep.isEmpty) = true) :
    pySplitCh sep (x :: l) =
      match pySplitCh sep l with
      | [] => [x :: l]
      | h :: t => (x :: h) :: t := by
  show pySplitAux sep (l.length + 1) (x :: l) = _
  simp only [pySplitAux, if_neg hc]
  rfl

theorem joinSep_pySplitAux (sep : List Char) :
    ∀ fuel xs, xs.length ≤ fuel → joinSep sep (pySplitAux sep fuel xs) = xs := by
  intro fuel
  induction fuel with
  | zero =>
    intro xs h
    have hx : xs = [] := List.eq_nil_of_length_eq_zero (Nat.le_zero.mp h)
    subst hx
    rfl
  | succ f ih =>
    intro xs h
    cases xs with
    | nil => rfl
    | cons x l =>
      simp only [pySplitAux]
      by_cases hc : (sep.isPrefixOf (x :: l) && !sep.isEmpty) = true
      · rw [if_pos hc]
        obtain ⟨r, rs, hr⟩ :=
          List.exists_cons_of_ne_nil
            (pySplitAux_ne_nil sep f ((x :: l).drop sep.length))
        have hsep : 1 ≤ sep.length :=
          List.length_pos.mpr (sep_ne_nil_of_cond hc)
        have hdrop : ((x :: l).drop sep.length).length ≤ f := by
          rw [List.length_drop]
          simp only [List.length_cons] at h ⊢
          omega
        rw [hr]
        show ([] : List Char) ++ sep ++ joinSep sep (r :: rs) = x :: l
        rw [← hr, ih _ hdrop]
        have hc1 : sep.isPrefixOf (x :: l) = true := by
          revert hc
          cases sep.isPrefixOf (x :: l) <;> simp
        simpa using append_drop_of_isPrefixOf hc1
      · rw [if_neg hc]
        have hl : l.length ≤ f := by simp at h; omega
        obtain ⟨r, rs, hr⟩ :=
          List.exists_cons_of_ne_nil (pySplitAux_ne_nil sep f l)
        rw [hr]
        cases rs with
        | nil =>
          have := ih l hl
          rw [hr] at this
          show x :: r = x :: l
          simpa using this
        | cons q qs =>
          have := ih l hl
          rw [hr] at this
          show (x :: r) ++ sep ++ joinSep sep (q :: qs) = x :: l
          simp only [List.cons_append]
          rw [← this]
          rfl

theorem joinSep_pySplitCh (sep xs : List Char) :
    joinSep sep (pySplitCh sep xs) = xs :=
  joinSep_pySplitAux sep xs.length xs (le_refl _)

/-- A split into exactly two pieces reconstructs the original text. -/
theorem eq_append_of_pySplitCh_pair {sep xs p q : List Char}
    (h : pySplitCh sep xs = [p, q]) : xs = p ++ sep ++ q := by
  have := joinSep_pySplitCh sep xs
  rw [h] at this
  exact this.symm

theorem pySplitCh_eq_single {sep : List Char} :
    ∀ xs, ¬ sep <:+: xs → pySplitCh sep xs = [xs] := by
  intro xs
  induction xs with
  | nil => intro _; rfl
  | cons x l ih =>
    intro hinf
    have hc : ¬ (sep.isPrefixOf (x :: l) && !sep.isEmpty) = true := by
      intro hc
      have hc1 : sep.isPrefixOf (x :: l) = true := by
        revert hc
        cases sep.isPrefixOf (x :: l) <;> simp
      exact hinf (List.isPrefixOf_iff_prefix.mp hc1).isInfix
    rw [pySplitCh_cons_neg hc,
      ih (fun h => hinf (List.infix_cons h))]

theorem two_le_length_pySplitCh {sep : List Char} (hsep : sep ≠ []) :
    ∀ xs, sep <:+: xs → 2 ≤ (pySplitCh sep xs).length := by
  intro xs
  induction xs with
  | nil =>
    intro hinf
    exact absurd (List.infix_nil.mp hinf) hsep
  | cons x l ih =>
    intro hinf
    by_cases hc : (sep.isPrefixOf (x :: l) && !sep.isEmpty) = true
    · rw [pySplitCh_cons_pos hc]
      have := List.length_pos.mpr
        (pySplitAux_ne_nil sep ((x :: l).drop sep.length).length
          ((x :: l).drop sep.length))
      simp only [List.length_cons]
      exact Nat.succ_le_succ this
    · have hpre : ¬ sep <+: (x :: l) := by
        intro hp
        exact hc (by
          simp [List.isPrefixOf_iff_prefix.mpr hp, List.isEmpty_iff, hsep])
      have hl : sep <:+: l := by
        rcases List.infix_cons_iff.mp hinf with h | h
        · exact absurd h hpre
        · exact h
      rw [pySplitCh_cons_neg hc]
      obtain ⟨r, rs, hr⟩ :=
        List.exists_cons_of_ne_nil (pySplitAux_ne_nil sep l.length l)
      have h2 := ih hl
      rw [show pySplitCh sep l = r :: rs from hr] at h2 ⊢
      simpa using h2

theorem breakOnSep_singleton {c : Char} :
    ∀ xs : List Char, c ∈ xs →
      ∃ p q, breakOnSep [c] xs = some (p, q) ∧ xs = p ++ c :: q ∧ c ∉ p := by
  intro xs
  induction xs with
  | nil => intro h; simp at h
  | cons x l ih =>
    intro hmem
    by_cases hx : x = c
    · subst hx
      refine ⟨[], l, ?_, by simp, by simp⟩
      simp [breakOnSep, List.isPrefixOf]
    · have hcl : c ∈ l := by
        rcases List.mem_cons.mp hmem with h | h
        · exact absurd h.symm hx
        · exact h
      obtain ⟨p, q, h1, h2, h3⟩ := ih hcl
      refine ⟨x :: p, q, ?_, by rw [List.cons_append, ← h2], ?_⟩
      · have hpref : ¬ (([c] : List Char).isPrefixOf (x :: l)
            && !(([c] : List Char).isEmpty)) = true := by
          simp [List.isPrefixOf]
          intro h
          exact absurd h.symm hx
        simp only [breakOnSep, if_neg hpref, h1]
      · intro hmem'
        rcases List.mem_cons.mp hmem' with h | h
        · exact hx h.symm
        · exact h3 h

theorem dropWhile_eq_self_of_prefix {p : Char → Bool} :
    ∀ {B R : List Char}, List.dropWhile p B = B → R <+: B →
      List.dropWhile p R = R := by
  intro B R hB hpre
  cases R with
  | nil => rfl
  | cons r R' =>
    obtain ⟨t, ht⟩ := hpre
    have hr : p r = false := by
      by_contra hpr
      have hpr' : p r = true := by
        cases h : p r
        · exact absurd h hpr
        · rfl
      rw [← ht] at hB
      have hB' : List.dropWhile p (R' ++ t) = r :: (R' ++ t) := by
        simpa [List.dropWhile_cons, hpr'] using hB
      have hlen := congrArg List.length hB'
      have hle : (List.dropWhile p (R' ++ t)).length ≤ (R' ++ t).length :=
        (List.dropWhile_suffix p).length_le
      simp only [List.length_cons] at hlen
      omega
    simp [List.dropWhile_cons, hr]

theorem stripCh_no_leading (xs : List Char) :
    List.dropWhile isPySpace (stripCh xs) = stripCh xs := by
  unfold stripCh
  set A := xs.dropWhile isPySpace with hA
  have hAfix : List.dropWhile isPySpace A = A := List.dropWhile_idempotent isPySpace xs
  have hsuff : List.dropWhile isPySpace A.reverse <:+ A.reverse :=
    List.dropWhile_suffix isPySpace
  have hpre : (List.dropWhile isPySpace A.reverse).reverse <+: A := by
    have h := List.reverse_prefix.mpr hsuff
    rwa [List.reverse_reverse] at h
  exact dropWhile_eq_self_of_prefix hAfix hpre

theorem stripCh_idem (xs : List Char) : stripCh (stripCh xs) = stripCh xs := by
  conv_lhs => rw [stripCh, stripCh_no_leading]
  unfold stripCh
  rw [List.reverse_reverse, List.dropWhile_idempotent]

theorem pyIdx1E_of_infix {sep resp : List Char} (hsep : sep ≠ [])
    (h : sep <:+: resp) :
    pyIdx1E (pySplitCh sep resp) = Except.ok ((pySplitCh sep resp).getD 1 []) := by
  have h2 := two_le_length_pySplitCh hsep resp h
  match hm : pySplitCh sep resp with
  | [] => rw [hm] at h2; simp at h2
  | [a] => rw [hm] at h2; simp at h2
  | a :: b :: t => simp [pyIdx1E]

/-- `_parse_date_response` always succeeds, and its value is given
field-by-field by `origField`, `stdField` and `datesField`. -/
theorem parse_date_response_eq (response : String) :
    _parse_date_response response =
      Except.ok ⟨origField response.data, stdField response.data,
        datesField response.data⟩ := by
  unfold _parse_date_response origField stdField datesField sliceBetween
  by_cases h1 : ORIGTXT <:+: response.data <;>
  by_cases h2 : STDTXT <:+: response.data <;>
  by_cases h3 : EXTRD <:+: response.data <;>
    simp [h1, h2, h3, pyIdx1E_of_infix (show ORIGTXT ≠ [] by decide),
      pyIdx1E_of_infix (show STDTXT ≠ [] by decide),
      pyIdx1E_of_infix (show EXTRD ≠ [] by decide), bind, Except.bind,
      pure, Except.pure]

theorem getPart_eq {marker : List Char} (hsep : marker ≠ []) (resp : List Char) :
    getPart marker resp = Except.ok (partGet marker resp) := by
  unfold getPart partGet
  by_cases h : marker <:+: resp
  · simp only [if_pos h]
    exact pyIdx1E_of_infix hsep h
  · simp [h]

/-- The `try:` body of the hardened parser always succeeds, with the value
given by `tzAssemble`. -/
theorem parseTZBody_eq (resp : List Char) :
    parseTZBody resp = Except.ok (tzAssemble resp) := by
  unfold parseTZBody tzAssemble
  rw [getPart_eq (show TZORIG ≠ [] by decide),
    getPart_eq (show TZDTZ ≠ [] by decide),
    getPart_eq (show TZSTD ≠ [] by decide),
    getPart_eq (show TZGEQ ≠ [] by decide)]
  rfl

theorem mem_dictInsert {k v : String} {kv : String × String} :
    ∀ {m : List (String × String)}, kv ∈ dictInsert m k v →
      kv = (k, v) ∨ kv ∈ m := by
  intro m
  induction m with
  | nil => intro h; simpa [dictInsert] using h
  | cons hd rest ih =>
    obtain ⟨k', v'⟩ := hd
    intro h
    by_cases hk : k' = k
    · subst hk
      rw [show dictInsert ((k', v') :: rest) k' v = (k', v) :: rest from by
        simp [dictInsert]] at h
      rcases List.mem_cons.mp h with h | h
      · exact Or.inl h
      · exact Or.inr (List.mem_cons_of_mem _ h)
    · simp only [dictInsert, if_neg hk, List.mem_cons] at h
      rcases h with h | h
      · exact Or.inr (by simp [h])
      · rcases ih h with h' | h'
        · exact Or.inl h'
        · exact Or.inr (List.mem_cons_of_mem _ h')

theorem keys_dictInsert (m : List (String × String)) (k v : String) :
    (dictInsert m k v).map Prod.fst =
      if k ∈ m.map Prod.fst then m.map Prod.fst
      else m.map Prod.fst ++ [k] := by
  induction m with
  | nil => simp [dictInsert]
  | cons hd rest ih =>
    obtain ⟨k', v'⟩ := hd
    by_cases hk : k' = k
    · subst hk
      simp [dictInsert]
    · have hne : ¬ k = k' := fun h => hk h.symm
      simp only [dictInsert, if_neg hk, List.map_cons, List.mem_cons, hne,
        false_or, ih]
      by_cases hmem : k ∈ rest.map Prod.fst
      · simp [hmem]
      · simp [hmem]

theorem firstOccsAux_congr :
    ∀ (l : List String) {s₁ s₂ : List String},
      (∀ x, x ∈ s₁ ↔ x ∈ s₂) → firstOccsAux s₁ l = firstOccsAux s₂ l := by
  intro l
  induction l with
  | nil => intro s₁ s₂ _; rfl
  | cons k rest ih =>
    intro s₁ s₂ h
    simp only [firstOccsAux]
    by_cases hk : k ∈ s₁
    · rw [if_pos hk, if_pos ((h k).mp hk), ih h]
    · rw [if_neg hk, if_neg (fun hh => hk ((h k).mpr hh))]
      refine congrArg (fun t => k :: t) (ih ?_)
      intro x
      simp only [List.mem_cons, h x]

theorem keys_foldl_processEquivLine :
    ∀ (lines : List (List Char)) (m : List (String × String)),
      (lines.foldl processEquivLine m).map Prod.fst =
        m.map Prod.fst ++ firstOccsAux (m.map Prod.fst)
          (lines.filterMap (fun l => (lineEntry l).map Prod.fst)) := by
  intro lines
  induction lines with
  | nil => intro m; simp [firstOccsAux]
  | cons l rest ih =>
    intro m
    simp only [List.foldl_cons, List.filterMap_cons]
    cases he : lineEntry l with
    | none => simp [processEquivLine, he, ih m]
    | some kv =>
      obtain ⟨k, v⟩ := kv
      simp only [processEquivLine, he, Option.map_some']
      rw [ih (dictInsert m k v), keys_dictInsert]
      by_cases hmem : k ∈ m.map Prod.fst
      · rw [if_pos hmem]
        simp only [firstOccsAux, if_pos hmem]
      · rw [if_neg hmem]
        rw [firstOccsAux_congr
          (rest.filterMap (fun l => (lineEntry l).map Prod.fst))
          (show ∀ x, x ∈ m.map Prod.fst ++ [k] ↔ x ∈ k :: m.map Prod.fst by
            intro x; simp [or_comm])]
        simp only [firstOccsAux, if_neg hmem, List.append_assoc,
          List.singleton_append]

theorem lineEntry_key_stripped {l : List Char} {k v : String}
    (h : lineEntry l = some (k, v)) : stripCh k.data = k.data := by
  unfold lineEntry at h
  split at h
  · split at h
    · split at h
      · rw [Option.some_inj] at h
        have hk : k = String.mk (stripCh _) := congrArg Prod.fst h.symm
        rw [hk]
        show stripCh (stripCh _) = stripCh _
        exact stripCh_idem _
      · exact absurd h (by simp)
    · exact absurd h (by simp)
  · exact absurd h (by simp)

theorem stripped_foldl :
    ∀ (lines : List (List Char)) (m : List (String × String)),
      (∀ kv ∈ m, stripCh (kv.1.data) = kv.1.data) →
      ∀ kv ∈ lines.foldl processEquivLine m, stripCh (kv.1.data) = kv.1.data := by
  intro lines
  induction lines with
  | nil => intro m hm; simpa using hm
  | cons l rest ih =>
    intro m hm
    simp only [List.foldl_cons]
    refine ih (processEquivLine m l) ?_
    intro kv hkv
    unfold processEquivLine at hkv
    cases he : lineEntry l with
    | none => rw [he] at hkv; exact hm kv hkv
    | some kv' =>
      obtain ⟨k, v⟩ := kv'
      rw [he] at hkv
      rcases mem_dictInsert hkv with h | h
      · rw [h]
        exact lineEntry_key_stripped he
      · exact hm kv h

example : pySplitCh (",".data) ("a,b,,c".data) =
    ["a".data, "b".data, [], "c".data] := by decide

example : pySplitCh ("aa".data) ("aaa".data) = [[], "a".data] := by decide

example : stripCh ("  a b ".data) = "a b".data := by decide

example : splitOnce (":".data) ("14:30:00".data) = ["14".data, "30:00".data] := by
  decide

example : ("ab".data) <:+: ("xaby".data) := by decide

/-! ## Claims -/


set_option maxRecDepth 100000

/-- C6: for every parsed date and every current local calendar date, the
relative-day description of `_get_relative_date_description` equals the
spec's classification of the whole-day difference
`target_date - current_local_date`. -/
theorem C6_relative_description_matches_spec (targetDay today : Int) :
    _get_relative_date_description targetDay today =
      relClassificationSpec (targetDay - today) := by
  unfold _get_relative_date_description relClassificationSpec
  split_ifs <;> first | rfl | omega

/-- C7: the enrichment pass never raises (it is a total function of the
abstracted date parser), drops exactly the strings the parser fails on,
and never returns a list longer than its input. -/
theorem C7_enrich_dates_silent_drop (parse : String → Option PyDatetime)
    (today : Int) (dates : List String) :
    (enrich_dates parse today dates).length ≤ dates.length ∧
    enrich_dates parse today dates =
      enrich_dates parse today (dates.filter (fun d => (parse d).isSome)) := by
  induction dates with
  | nil => exact ⟨le_refl _, rfl⟩
  | cons d rest ih =>
    cases hp : parse d with
    | none =>
      constructor
      · simp only [enrich_dates, hp, List.length_cons]
        exact le_trans ih.1 (Nat.le_succ _)
      · simp only [List.filter_cons, hp, Option.isSome_none, Bool.false_eq_true,
          if_false, enrich_dates]
        exact ih.2
    | some obj =>
      constructor
      · simp only [enrich_dates, hp, List.length_cons]
        exact Nat.succ_le_succ ih.1
      · simp only [List.filter_cons, hp, Option.isSome_some, if_true,
          enrich_dates]
        rw [ih.2]

/-- C10: the `original` field of the record built by
`process_text_with_dates` is the caller's input text verbatim, whatever
the model's completion is. -/
theorem C10_original_is_input_verbatim (parse : String → Option PyDatetime)
    (today : Int) (text response : String) :
    ∃ e, process_text_with_dates parse today text response = Except.ok e ∧
      e.original = text := by
  unfold process_text_with_dates
  rw [parse_date_response_eq]
  exact ⟨_, rfl, rfl⟩

/-- C9: a trailing comma after a non-empty remainder produces an
empty-string element in `extracted_dates`: the empty-remainder guard does
not filter empty tokens of the comma split. -/
theorem C9_trailing_comma_empty_token :
    ∃ r, _parse_date_response ("Extracted dates: 2023-03-15,") =
        Except.ok r ∧
      r.extracted_dates = ["2023-03-15", ""] ∧ "" ∈ r.extracted_dates :=
  ⟨_, rfl, rfl, by decide⟩

/-- C1: the effective timezone response parser never propagates an
exception: its `try:` body (with every fallible Python operation modelled
in `Except`) always succeeds, and `_parse_response` returns that body's
result mapping. -/
theorem C1_tz_parse_never_raises (response : String) :
    ∃ r, parseTZBody response.data = Except.ok r ∧
      _parse_response response = r := by
  refine ⟨tzAssemble response.data, parseTZBody_eq _, ?_⟩
  unfold _parse_response
  rw [parseTZBody_eq]

/-- C3: a field whose marker is absent from the completion stays at its
zero value; a field whose marker is present is computed by its own slice
expression; a completion with no marker yields the all-zero result; and
no exception is raised (`_parse_date_response` always returns `ok`). -/
theorem C3_absent_markers_zero_fields (response : String) :
    ∃ r, _parse_date_response response = Except.ok r ∧
      (¬ ORIGTXT <:+: response.data → r.original_text = "") ∧
      (¬ STDTXT <:+: response.data → r.standardized_text = "") ∧
      (¬ EXTRD <:+: response.data → r.extracted_dates = []) ∧
      (ORIGTXT <:+: response.data →
        r.original_text = String.mk (sliceBetween ORIGTXT STDTXT response.data)) ∧
      (STDTXT <:+: response.data →
        r.standardized_text = String.mk (sliceBetween STDTXT EXTRD response.data)) ∧
      (EXTRD <:+: response.data →
        r.extracted_dates =
          extractDatesField ((pySplitCh EXTRD response.data).getD 1 [])) ∧
      (¬ ORIGTXT <:+: response.data → ¬ STDTXT <:+: response.data →
        ¬ EXTRD <:+: response.data → r = ⟨"", "", []⟩) := by
  refine ⟨_, parse_date_response_eq response, ?_, ?_, ?_, ?_, ?_, ?_, ?_⟩
  · intro h; simp [origField, h]
  · intro h; simp [stdField, h]
  · intro h; simp [datesField, h]
  · intro h; simp [origField, h]
  · intro h; simp [stdField, h]
  · intro h; simp [datesField, h]
  · intro h1 h2 h3; simp [origField, stdField, datesField, h1, h2, h3]

/-- Witness for C3: a completion with no marker at all parses to the
all-zero result. -/
theorem C3_absent_markers_zero_fields_witness :
    ∃ r, _parse_date_response ("It was a sunny day") = Except.ok r ∧
      r = ⟨"", "", []⟩ := by
  obtain ⟨r, hok, _, _, _, _, _, _, hall⟩ :=
    C3_absent_markers_zero_fields ("It was a sunny day")
  exact ⟨r, hok, hall (by decide) (by decide) (by decide)⟩

/-- C4: the text after the `"Extracted dates:"` marker is comma-split with
each token trimmed; an all-whitespace remainder yields `[]` (not `[""]`);
and the two concrete completions of the spec parse as stated. -/
theorem C4_comma_split_dates_field :
    (∀ tail : List Char, stripCh tail = [] → extractDatesField tail = []) ∧
    (∀ tail : List Char, stripCh tail ≠ [] →
      extractDatesField tail =
        (pySplitCh (",".data) (stripCh tail)).map
          (fun d => String.mk (stripCh d))) ∧
    (∃ r, _parse_date_response ("Extracted dates: 2023-03-15, 2023-03-20") =
      Except.ok r ∧ r.extracted_dates = ["2023-03-15", "2023-03-20"]) ∧
    (∃ r, _parse_date_response ("Extracted dates:") = Except.ok r ∧
      r.extracted_dates = []) := by
  refine ⟨?_, ?_, ⟨_, rfl, rfl⟩, ⟨_, rfl, rfl⟩⟩
  · intro tail h
    simp [extractDatesField, h]
  · intro tail h
    rw [extractDatesField, if_neg (by simp [List.isEmpty_iff, h])]

/-- Witness for C4 on concrete remainders. -/
theorem C4_comma_split_dates_field_witness :
    extractDatesField (("   ").data) = [] ∧
    extractDatesField ((" 3pm,, 4pm ").data) =
      (pySplitCh (",".data) (stripCh ((" 3pm,, 4pm ").data))).map
        (fun d => String.mk (stripCh d)) :=
  ⟨C4_comma_split_dates_field.1 _ (by decide),
    C4_comma_split_dates_field.2.1 _ (by decide)⟩

/-- C5 counterexample: this completion contains all three markers, in
order, yet `original_text` and `standardized_text` come back empty (the
markers are adjacent), refuting the claimed non-emptiness. -/
theorem C5_counterexample_adjacent_markers :
    (ORIGTXT <:+:
      ("Original text:Standardized text:Extracted dates:2023-01-01").data) ∧
    (STDTXT <:+:
      ("Original text:Standardized text:Extracted dates:2023-01-01").data) ∧
    (EXTRD <:+:
      ("Original text:Standardized text:Extracted dates:2023-01-01").data) ∧
    _parse_date_response
        ("Original text:Standardized text:Extracted dates:2023-01-01") =
      Except.ok ⟨"", "", ["2023-01-01"]⟩ :=
  ⟨by decide, by decide, by decide, rfl⟩

/-- C5 (amended): for a completion of the form
`A ++ "Original text:" ++ B ++ "Standardized text:" ++ C ++ "Extracted dates:" ++ D`
in which each marker's split cuts exactly at the shown position (each
marker occurs exactly once), and whose inter-marker texts `B` and `C` are
not pure whitespace, `_parse_date_response` returns the trimmed `B` and
`C` (both non-empty) and the comma-split (with per-token trimming) of the
text `D` after the last marker. -/
theorem C5_all_markers_in_order_parse
    (A B C D resp : List Char)
    (hresp : resp = A ++ ORIGTXT ++ B ++ STDTXT ++ C ++ EXTRD ++ D)
    (h1 : pySplitCh ORIGTXT resp = [A, B ++ STDTXT ++ C ++ EXTRD ++ D])
    (h2 : pySplitCh STDTXT resp = [A ++ ORIGTXT ++ B, C ++ EXTRD ++ D])
    (h3 : pySplitCh EXTRD resp = [A ++ ORIGTXT ++ B ++ STDTXT ++ C, D])
    (h2b : pySplitCh STDTXT (B ++ STDTXT ++ C ++ EXTRD ++ D) =
      [B, C ++ EXTRD ++ D])
    (h3b : pySplitCh EXTRD (C ++ EXTRD ++ D) = [C, D])
    (hB : stripCh B ≠ []) (hC : stripCh C ≠ []) :
    ∃ r, _parse_date_response (String.mk resp) = Except.ok r ∧
      r.original_text = String.mk (stripCh B) ∧ r.original_text ≠ "" ∧
      r.standardized_text = String.mk (stripCh C) ∧
      r.standardized_text ≠ "" ∧
      r.extracted_dates = extractDatesField D := by
  have hiO : ORIGTXT <:+: resp :=
    ⟨A, B ++ STDTXT ++ C ++ EXTRD ++ D, by simp [hresp, List.append_assoc]⟩
  have hiS : STDTXT <:+: resp :=
    ⟨A ++ ORIGTXT ++ B, C ++ EXTRD ++ D, by simp [hresp, List.append_assoc]⟩
  have hiE : EXTRD <:+: resp :=
    ⟨A ++ ORIGTXT ++ B ++ STDTXT ++ C, D, by simp [hresp, List.append_assoc]⟩
  have e1 : (pySplitCh ORIGTXT resp).getD 1 [] =
      B ++ STDTXT ++ C ++ EXTRD ++ D := by rw [h1]; rfl
  have e2 : (pySplitCh STDTXT resp).getD 1 [] = C ++ EXTRD ++ D := by
    rw [h2]; rfl
  have e3 : (pySplitCh EXTRD resp).getD 1 [] = D := by rw [h3]; rfl
  have e2b : (pySplitCh STDTXT (B ++ STDTXT ++ C ++ EXTRD ++ D)).headD [] = B := by
    rw [h2b]; rfl
  have e3b : (pySplitCh EXTRD (C ++ EXTRD ++ D)).headD [] = C := by
    rw [h3b]; rfl
  have horig : origField resp = String.mk (stripCh B) := by
    unfold origField sliceBetween
    rw [if_pos hiO, e1, e2b]
  have hstd : stdField resp = String.mk (stripCh C) := by
    unfold stdField sliceBetween
    rw [if_pos hiS, e2, e3b]
  have hdts : datesField resp = extractDatesField D := by
    unfold datesField
    rw [if_pos hiE, e3]
  have hokt : _parse_date_response (String.mk resp) =
      Except.ok ⟨origField resp, stdField resp, datesField resp⟩ :=
    parse_date_response_eq (String.mk resp)
  refine ⟨⟨String.mk (stripCh B), String.mk (stripCh C), extractDatesField D⟩,
    ?_, rfl, ?_, rfl, ?_, rfl⟩
  · rw [hokt, horig, hstd, hdts]
  · intro hcon
    exact hB (by simpa using congrArg String.data hcon)
  · intro hcon
    exact hC (by simpa using congrArg String.data hcon)

/-- Witness for C5 on a well-formed completion. -/
theorem C5_all_markers_in_order_parse_witness :
    ∃ r, _parse_date_response ("Original text: foo Standardized text: bar Extracted dates: 2023-03-15, 2023-03-20") =
      Except.ok r ∧
      r.original_text = "foo" ∧ r.standardized_text = "bar" ∧
      r.extracted_dates = ["2023-03-15", "2023-03-20"] := by
  obtain ⟨r, hok, ho, _, hs, _, hd⟩ :=
    C5_all_markers_in_order_parse
      ([]) ((" foo ").data) ((" bar ").data) ((" 2023-03-15, 2023-03-20").data)
      (("Original text: foo Standardized text: bar Extracted dates: 2023-03-15, 2023-03-20").data)
      (by decide) (by decide) (by decide) (by decide) (by decide) (by decide)
      (by decide) (by decide)
  exact ⟨r, hok, by rw [ho]; rfl, by rw [hs]; rfl, by rw [hd]; rfl⟩

/-- C2 counterexample: the raw block line `" - UTC: 1"` does not start
with `'-'` (it starts with a space), yet it contributes the entry
`("UTC", "1")`: the code tests the stripped line, not the raw line. -/
theorem C2_counterexample_padded_line :
    lineEntry ((" - UTC: 1").data) = some ("UTC", "1") ∧
    (("-").data).isPrefixOf ((" - UTC: 1").data) = false ∧
    processEquivLine [] ((" - UTC: 1").data) = [("UTC", "1")] :=
  ⟨rfl, rfl, rfl⟩

/-- C2 (amended): a line of the equivalents block contributes an entry
exactly when its whitespace-stripped form starts with `'-'` and contains
a `':'` and both the label (the stripped text between the leading `'-'`
and the first `':'`) and the value (the stripped text after the first
`':'`) are non-empty; the split is at the first `':'` only (`':' ∉ p`),
and every other line is skipped without error. -/
theorem C2_equiv_line_contribution (m : List (String × String))
    (rawLine : List Char) :
    (¬ ((("-").data).isPrefixOf (stripCh rawLine)
        && (stripCh rawLine).contains ':') = true →
      lineEntry rawLine = none ∧ processEquivLine m rawLine = m) ∧
    (((("-").data).isPrefixOf (stripCh rawLine)
        && (stripCh rawLine).contains ':') = true →
      ∃ p q, (stripCh rawLine).drop 1 = p ++ ':' :: q ∧ ':' ∉ p ∧
        lineEntry rawLine =
          (if stripCh p ≠ [] ∧ stripCh q ≠ []
           then some (String.mk (stripCh p), String.mk (stripCh q))
           else none) ∧
        processEquivLine m rawLine =
          (if stripCh p ≠ [] ∧ stripCh q ≠ []
           then dictInsert m (String.mk (stripCh p)) (String.mk (stripCh q))
           else m)) := by
  constructor
  · intro h
    have he : lineEntry rawLine = none := by
      unfold lineEntry
      rw [if_neg h]
    refine ⟨he, ?_⟩
    unfold processEquivLine
    rw [he]
  · intro h
    have hh := h
    rw [Bool.and_eq_true] at hh
    obtain ⟨hpre, hcol⟩ := hh
    obtain ⟨rest, hrest⟩ : ∃ rest, stripCh rawLine = '-' :: rest := by
      cases hl : stripCh rawLine with
      | nil => rw [hl] at hpre; simp [List.isPrefixOf] at hpre
      | cons c cs =>
        rw [hl] at hpre
        have hc : '-' = c := by simpa [List.isPrefixOf] using hpre
        exact ⟨cs, by rw [← hc]⟩
    have hmem : ':' ∈ stripCh rawLine := List.elem_iff.mp hcol
    have hmemrest : ':' ∈ rest := by
      rw [hrest] at hmem
      rcases List.mem_cons.mp hmem with h' | h'
      · exact absurd h' (by decide)
      · exact h'
    obtain ⟨p, q, hbrk, hdecomp, hnotin⟩ := breakOnSep_singleton rest hmemrest
    have hdrop : (stripCh rawLine).drop 1 = rest := by rw [hrest]; rfl
    have hsplit : splitOnce ((":").data) ((stripCh rawLine).drop 1) = [p, q] := by
      rw [hdrop]
      unfold splitOnce
      rw [show ((":").data) = [':'] from rfl, hbrk]
    have hentry : lineEntry rawLine =
        (if stripCh p ≠ [] ∧ stripCh q ≠ []
         then some (String.mk (stripCh p), String.mk (stripCh q))
         else none) := by
      unfold lineEntry
      rw [if_pos h, hsplit]
      show (if (!(stripCh p).isEmpty && !(stripCh q).isEmpty) = true
            then some (String.mk (stripCh p), String.mk (stripCh q))
            else none) = _
      by_cases hpq : stripCh p ≠ [] ∧ stripCh q ≠ []
      · have hb : (!(stripCh p).isEmpty && !(stripCh q).isEmpty) = true := by
          simp [List.isEmpty_iff, hpq.1, hpq.2]
        rw [if_pos hb, if_pos hpq]
      · have hpq' : stripCh p = [] ∨ stripCh q = [] := by
          by_cases h1 : stripCh p = []
          · exact Or.inl h1
          · right
            by_cases h2 : stripCh q = []
            · exact h2
            · exact absurd ⟨h1, h2⟩ hpq
        have hb : ¬ (!(stripCh p).isEmpty && !(stripCh q).isEmpty) = true := by
          rcases hpq' with h' | h' <;> simp [h', List.isEmpty_iff]
        rw [if_neg hb, if_neg hpq]
    refine ⟨p, q, by rw [hdrop, hdecomp], hnotin, hentry, ?_⟩
    unfold processEquivLine
    rw [hentry]
    by_cases hpq : stripCh p ≠ [] ∧ stripCh q ≠ []
    · rw [if_pos hpq, if_pos hpq]
    · rw [if_neg hpq, if_neg hpq]

/-- Witness for C2 on the spec's own non-qualifying example line. -/
theorem C2_equiv_line_contribution_witness :
    lineEntry (("Note: nothing to convert").data) = none ∧
    processEquivLine [] (("Note: nothing to convert").data) = [] :=
  (C2_equiv_line_contribution [] (("Note: nothing to convert").data)).1
    (by decide)

/-- C8 counterexample: two labels equal up to case yield two distinct
keys, `"utc"` and `"UTC"`, both kept verbatim — the keys are not
case-normalized (whitespace is stripped, case is preserved). -/
theorem C8_counterexample_case_preserved :
    (_parse_response ("Global Equivalents:\n- utc: 1am\n- UTC: 2am")).global_equivalents =
      [("utc", "1am"), ("UTC", "2am")] ∧
    ("utc" : String) ≠ "UTC" ∧
    (("utc" : String)).data.map Char.toUpper =
      (("UTC" : String)).data.map Char.toUpper :=
  ⟨rfl, by decide, by decide⟩

/-- C8 (amended): every key of the returned `global_equivalents` mapping
is whitespace-stripped (but case-preserving), and the key sequence is
exactly the first-encounter order of the labels the loop records. -/
theorem C8_keys_stripped_first_encounter_order (response : String) :
    (∀ kv ∈ (_parse_response response).global_equivalents,
      stripCh (kv.1.data) = kv.1.data) ∧
    ((_parse_response response).global_equivalents).map Prod.fst =
      firstOccsAux [] (recordedLabels response.data) := by
  have hges : (_parse_response response).global_equivalents =
      equivFold (partGet TZGEQ response.data) := by
    unfold _parse_response
    rw [parseTZBody_eq]
    rfl
  rw [hges]
  unfold equivFold recordedLabels equivLinesOf
  by_cases he : (partGet TZGEQ response.data).isEmpty
  · simp [he, firstOccsAux]
  · rw [if_neg he, if_neg he]
    constructor
    · exact stripped_foldl _ [] (by simp)
    · rw [keys_foldl_processEquivLine]
      simp

/-- Witness for C8 on a one-entry block: the recorded key is stripped. -/
theorem C8_keys_stripped_first_encounter_order_witness :
    stripCh ((("UTC" : String)).data) = (("UTC" : String)).data :=
  (C8_keys_stripped_first_encounter_order
    ("Global Equivalents:\n- UTC: 2am")).1 ("UTC", "2am")
    (by
      rw [show (_parse_response
          ("Global Equivalents:\n- UTC: 2am")).global_equivalents =
        [("UTC", "2am")] from rfl]
      simp)
